import Mathlib

/-!
Shallow embedding of `connectz.py`, a validator for recorded Connect-Z games
(X columns, Y rows, Z in a row to win), together with proofs about it.

The embedding follows the Python source line by line:
* `Player`, `GameResult` mirror the two enums;
* `Failure` mirrors the exception hierarchy raised by the engine, with one
  extra constructor `NameError` that models CPython's `UnboundLocalError`
  (the loop variable `player` in `ConnectZ.play` is referenced after a
  zero-iteration loop); that exception is not caught by the `__main__`
  handler, which is why `exitCode` maps it to `none`;
* the mutable `self._grid` becomes explicit state passing through
  `ConnectZState`; `put_disc` returns the state paired with the call's
  outcome so that the state at exception time is visible;
* Python integers are `Int` (moves, parsed parameters) or `Nat` (validated
  board dimensions, which are positive after the constructor's check);
* the text constructor `ConnectZ.__init__` is modelled over `List Char`
  with Python's line iteration (`splitNl`/`pyLines`), `str.split`
  (`pySplit`) and `int` (`pyInt`).
-/

/-- Mirrors `class Player(Enum)` of the source. -/
inductive Player where
  | FIRST
  | SECOND
deriving DecidableEq, Repr

/-- Mirrors `class GameResult(Enum)`: DRAW = 0, FIRST_WON = 1, SECOND_WON = 2. -/
inductive GameResult where
  | DRAW
  | FIRST_WON
  | SECOND_WON
deriving DecidableEq, Repr

/-- The exceptions the engine can raise.  The first six mirror the Python
exception classes; `NameError` models CPython's `UnboundLocalError`, raised
at `result = self._check_for_result(player)` when the move list is empty and
the loop variable `player` was never bound. -/
inductive Failure where
  | ParsingProblem
  | InvalidParameters
  | InvalidColumn
  | ColumnToHigh
  | ToManyMoves
  | LackOfResult
  | NameError
deriving DecidableEq, Repr

/-- Mirrors `GameResult(player.value)`: the winning result of a player. -/
def playerResult : Player → GameResult
  | Player.FIRST => GameResult.FIRST_WON
  | Player.SECOND => GameResult.SECOND_WON

/-- Mirrors `ConnectZ.get_second_user`:
`Player.FIRST if player == Player.SECOND else Player.SECOND`. -/
def get_second_user (player : Player) : Player :=
  if player = Player.SECOND then Player.FIRST else Player.SECOND

/-- The state owned by a `ConnectZ` instance during `play`: the validated
configuration `(x, y, z)` and the grid, a list of `x` columns, each an
append-only list of discs (bottom first). -/
structure ConnectZState where
  x : Nat
  y : Nat
  z : Nat
  grid : List (List Player)
deriving DecidableEq, Repr

/-- The loop body of `ConnectZ._check_for_result_in_line`: `repeats` is the
run counter; the counter is compared with `z` before each cell is consumed
and once more after the loop. -/
def scanLine (z : Nat) (player : Player) : Nat → List (Option Player) → Bool
  | repeats, [] => repeats == z
  | repeats, field :: rest =>
    if repeats == z then true
    else scanLine z player (if field = some player then repeats + 1 else 0) rest

/-- Mirrors `ConnectZ._check_for_result_in_line`: returns
`GameResult(player.value)` when the run counter reaches `z`, `None`
otherwise. -/
def check_for_result_in_line (z : Nat) (line : List (Option Player))
    (player : Player) : Option GameResult :=
  if scanLine z player 0 line then some (playerResult player) else none

/-- Mirrors `ConnectZ._get_or_none`: the cell of column `x` at height `y`,
`None` when the column is not filled up to `y`.  (The Python code reads
`self._grid[x]`; every call site supplies `x < len(self._grid)`, and out of
range reads default to the empty column here.) -/
def get_or_none (s : ConnectZState) (x y : Nat) : Option Player :=
  (s.grid.getD x [])[y]?

/-- Python `range(a, b)`. -/
def pyRange (a b : Nat) : List Nat :=
  (List.range (b - a)).map (fun k => a + k)

/-- Python `range(start, -1, -1)` for `start ≥ 0`: the list
`[start, start - 1, ..., 0]`.  The only call site is `ConnectZ._diagonals`
with `start = X - 1 - x` and `x ≤ X - Z`, which is non-negative for every
validated configuration (`Z ≥ 1`). -/
def pyRangeDown (start : Nat) : List Nat :=
  (List.range (start + 1)).map (fun k => start - k)

/-- Mirrors `ConnectZ._diagonals`: for every `x < X + 1 - Z` and
`y < Y + 1 - Z`, one ascending diagonal `zip(range(x, X), range(y, Y))` and
one descending diagonal `zip(range(X - 1 - x, -1, -1), range(y, Y))`. -/
def diagonals (s : ConnectZState) : List (List (Nat × Nat)) :=
  (List.range (s.x + 1 - s.z)).flatMap (fun x =>
    (List.range (s.y + 1 - s.z)).flatMap (fun y =>
      [List.zip (pyRange x s.x) (pyRange y s.y),
       List.zip (pyRangeDown (s.x - 1 - x)) (pyRange y s.y)]))

/-- Mirrors `ConnectZ._possible_lines`: every column (its cells lifted to
`Option` so all lines share one type), every row, then every diagonal. -/
def possible_lines (s : ConnectZState) : List (List (Option Player)) :=
  s.grid.map (fun column => column.map some)
    ++ (List.range s.y).map (fun y => (List.range s.x).map (fun x => get_or_none s x y))
    ++ (diagonals s).map (fun diagonal =>
        diagonal.map (fun xy => get_or_none s xy.1 xy.2))

/-- Mirrors `ConnectZ._check_for_draw`: every column holds exactly `y`
discs. -/
def check_for_draw (s : ConnectZState) : Bool :=
  s.grid.all (fun column => column.length == s.y)

/-- The player has some winning line among `possible_lines` (the non-draw
part of `ConnectZ._check_for_result`). -/
def hasWinningLine (s : ConnectZState) (player : Player) : Bool :=
  (possible_lines s).any (fun line => (check_for_result_in_line s.z line player).isSome)

/-- Mirrors `ConnectZ._check_for_result`: the first line verdict if any line
scan succeeds (the Python truthiness test `if result_in_line` is an
is-not-None test, since the scan only ever returns `FIRST_WON` or
`SECOND_WON`, both truthy); otherwise `DRAW` when the board is full,
otherwise `None`. -/
def check_for_result (s : ConnectZState) (player : Player) : Option GameResult :=
  match (possible_lines s).findSome?
      (fun line => check_for_result_in_line s.z line player) with
  | some result_in_line => some result_in_line
  | none => if check_for_draw s then some GameResult.DRAW else none

/-- Mirrors `ConnectZ.put_disc`.  The returned state is the grid at the
moment the call finishes, also on the exception paths (both raises happen
before the `append`, so those paths return the grid unchanged). -/
def put_disc (s : ConnectZState) (player : Player) (column : Int) :
    Except Failure Unit × ConnectZState :=
  if ¬(0 < column ∧ column ≤ (s.x : Int)) then
    (Except.error Failure.InvalidColumn, s)
  else
    let column_list := s.grid.getD (column - 1).toNat []
    if s.y ≤ column_list.length then
      (Except.error Failure.ColumnToHigh, s)
    else
      (Except.ok (),
       { s with grid := s.grid.set (column - 1).toNat (column_list ++ [player]) })

/-- The move loop of `ConnectZ.play`: `current` is the player produced by
the `players()` generator for the next move, `last` the loop variable
`player` after the previous iteration (`none` while the loop has not run). -/
def playAux : ConnectZState → Player → Option Player → List Int →
    Except Failure (ConnectZState × Option Player)
  | s, _, last, [] => Except.ok (s, last)
  | s, current, _, column :: rest =>
    if (check_for_result s (get_second_user current)).isSome then
      Except.error Failure.ToManyMoves
    else
      match put_disc s current column with
      | (Except.error e, _) => Except.error e
      | (Except.ok _, s1) => playAux s1 (get_second_user current) (some current) rest

/-- The state of `ConnectZ.play` right after `self._grid = [[] for _ in range(self._x)]`. -/
def initState (x y z : Nat) : ConnectZState :=
  { x := x, y := y, z := z, grid := List.replicate x [] }

/-- Mirrors `ConnectZ.play`.  After the loop the Python code evaluates
`self._check_for_result(player)` with the loop variable `player`; when the
move list is empty that variable was never bound and CPython raises
`UnboundLocalError`, modelled by `Failure.NameError`. -/
def play (x y z : Nat) (moves : List Int) : Except Failure GameResult :=
  match playAux (initState x y z) Player.FIRST none moves with
  | Except.error e => Except.error e
  | Except.ok (_, none) => Except.error Failure.NameError
  | Except.ok (s, some player) =>
    match check_for_result s player with
    | none => Except.error Failure.LackOfResult
    | some result => Except.ok result

/-- Splits a character stream at every newline; the result has one segment
per newline plus a final segment (possibly empty). -/
def splitNl : List Char → List (List Char)
  | [] => [[]]
  | c :: rest =>
    match splitNl rest with
    | [] => if c = '\n' then [[], []] else [[c]]
    | seg :: segs => if c = '\n' then [] :: seg :: segs else (c :: seg) :: segs

/-- Python text-file line iteration: the segments of `splitNl`, except that
a trailing newline produces no final empty line. -/
def pyLines (input : List Char) : List (List Char) :=
  let segs := splitNl input
  if segs.getLast? = some [] then segs.dropLast else segs

/-- Python `str.strip()`: drop whitespace from both ends. -/
def pyStrip (cs : List Char) : List Char :=
  ((cs.dropWhile Char.isWhitespace).reverse.dropWhile Char.isWhitespace).reverse

/-- The digits of a decimal literal, or `none` when the characters are not a
non-empty run of digits. -/
def digitsToNat (cs : List Char) : Option Nat :=
  if cs ≠ [] ∧ cs.all Char.isDigit then
    some (cs.foldl (fun n c => 10 * n + (c.toNat - 48)) 0)
  else none

/-- Python `int(str)`: strip whitespace, allow one optional sign, then a
non-empty run of decimal digits; everything else raises `ValueError`
(`none`). -/
def pyInt (cs : List Char) : Option Int :=
  match pyStrip cs with
  | [] => none
  | c :: rest =>
    if c = '-' then (digitsToNat rest).map (fun n => -(n : Int))
    else if c = '+' then (digitsToNat rest).map (fun n => (n : Int))
    else (digitsToNat (c :: rest)).map (fun n => (n : Int))

/-- Helper of `pySplit`: `cur` is the token under construction, reversed. -/
def pySplitAux : List Char → List Char → List (List Char)
  | cur, [] => if cur = [] then [] else [cur.reverse]
  | cur, c :: rest =>
    if c.isWhitespace then
      if cur = [] then pySplitAux [] rest else cur.reverse :: pySplitAux [] rest
    else pySplitAux (c :: cur) rest

/-- Python `str.split()` with no separator: whitespace-delimited tokens,
with no empty tokens. -/
def pySplit (cs : List Char) : List (List Char) :=
  pySplitAux [] cs

/-- `[int(line) for line in text_io]`: every remaining line must parse as an
integer, otherwise the comprehension raises `ValueError`. -/
def parseMoves : List (List Char) → Option (List Int)
  | [] => some []
  | l :: ls =>
    match pyInt l, parseMoves ls with
    | some n, some ns => some (n :: ns)
    | _, _ => none

/-- The parsed and validated constructor data of a `ConnectZ` instance. -/
structure ParsedInput where
  x : Int
  y : Int
  z : Int
  moves : List Int
deriving DecidableEq, Repr

/-- Mirrors `ConnectZ.__init__`: the first line must yield exactly three
integers, every further line one integer (any `ValueError`, including a
failed unpacking, becomes `ParsingProblem`); then the configuration
invariant `z ≤ max(x, y)` and `min(x, y, z) ≥ 1` is checked. -/
def initConnectZ (input : List Char) : Except Failure ParsedInput :=
  let lines := pyLines input
  match (pySplit (lines.headD [])).map pyInt with
  | [some x, some y, some z] =>
    match parseMoves (lines.drop 1) with
    | some moves =>
      if max x y < z ∨ min x (min y z) < 1 then
        Except.error Failure.InvalidParameters
      else Except.ok { x := x, y := y, z := z, moves := moves }
    | none => Except.error Failure.ParsingProblem
  | _ => Except.error Failure.ParsingProblem

/-- The whole engine on a character stream: `ConnectZ(file).play()`. -/
def connectzL (input : List Char) : Except Failure GameResult :=
  match initConnectZ input with
  | Except.error e => Except.error e
  | Except.ok p => play p.x.toNat p.y.toNat p.z.toNat p.moves

/-- The whole engine on a string. -/
def connectz (input : String) : Except Failure GameResult :=
  connectzL input.toList

/-- The `__main__` exit-code mapping.  `NameError` is caught by none of the
handlers: the interpreter aborts with a traceback, so no engine-chosen exit
code exists (`none`). -/
def exitCode : Except Failure GameResult → Option Nat
  | Except.ok GameResult.DRAW => some 0
  | Except.ok GameResult.FIRST_WON => some 1
  | Except.ok GameResult.SECOND_WON => some 2
  | Except.error Failure.LackOfResult => some 3
  | Except.error Failure.ToManyMoves => some 4
  | Except.error Failure.ColumnToHigh => some 5
  | Except.error Failure.InvalidColumn => some 6
  | Except.error Failure.InvalidParameters => some 7
  | Except.error Failure.ParsingProblem => some 8
  | Except.error Failure.NameError => none

/-- A valid configuration followed by zero moves (claim C1). -/
def inputZeroMoves : String := "2 2 2\n"

/-- A 3-column, 1-row, 3-in-a-row game that fills the board with no winner
(the alternation gives the single row the shape FIRST, SECOND, FIRST) and
then records one extra move (claim C2). -/
def inputFullBoardExtraMove : String := "3 1 3\n1\n2\n3\n1"

/-- The board after the three legal moves of `inputFullBoardExtraMove`:
full, and no player has three in a row. -/
def fullBoardState : ConnectZState :=
  { x := 3, y := 1, z := 3,
    grid := [[Player.FIRST], [Player.SECOND], [Player.FIRST]] }

/-- The specification's 2x2x2 scenario input (claim C3). -/
def inputScenario2x2 : String := "2 2 2\n1\n1\n2\n2"

/-- The board of `inputScenario2x2` after its first three moves: FIRST
holds the cells (0,0) and (1,0), a horizontal 2-in-a-row in row 0. -/
def scenario2x2After3 : ConnectZState :=
  { x := 2, y := 2, z := 2,
    grid := [[Player.FIRST, Player.SECOND], [Player.FIRST]] }

/-- A finished game whose log ends with one blank line (claim C4). -/
def inputBlankTrailingLine : String := "2 2 2\n1\n2\n1\n\n"

/-- The same game without the blank line: FIRST wins with a vertical pair. -/
def inputNoBlankTrailingLine : String := "2 2 2\n1\n2\n1\n"

/-- The move lines of `inputNoBlankTrailingLine` without their final
newline (used to show that one trailing newline is harmless). -/
def inputNoTrailingNewline : String := "2 2 2\n1\n2\n1"

/-- The line `line` contains at least `z` consecutive cells equal to
`some p` (the specification's notion of a winning run; a cell holding `none`
or the other player can never belong to such a run). -/
def containsRun (z : Nat) (p : Player) (line : List (Option Player)) : Prop :=
  ∃ i, (line.drop i).take z = List.replicate z (some p)

theorem containsRun_iff_getElem (z : Nat) (p : Player) (l : List (Option Player)) :
    containsRun z p l ↔ ∃ i, ∀ j, j < z → l[i + j]? = some (some p) := by
  constructor
  · rintro ⟨i, h⟩
    refine ⟨i, fun j hj => ?_⟩
    have h1 : ((l.drop i).take z)[j]? = some (some p) := by
      rw [h, List.getElem?_replicate, if_pos hj]
    rw [List.getElem?_take, if_pos hj, List.getElem?_drop] at h1
    exact h1
  · rintro ⟨i, h⟩
    refine ⟨i, List.ext_getElem? fun n => ?_⟩
    rw [List.getElem?_take, List.getElem?_replicate, List.getElem?_drop]
    by_cases hn : n < z
    · rw [if_pos hn, if_pos hn, h n hn]
    · rw [if_neg hn, if_neg hn]

theorem containsRun_cons (z : Nat) (p : Player) (f : Option Player)
    (t : List (Option Player)) :
    containsRun z p (f :: t) ↔
      (f :: t).take z = List.replicate z (some p) ∨ containsRun z p t := by
  constructor
  · rintro ⟨i, h⟩
    cases i with
    | zero => exact Or.inl h
    | succ i => exact Or.inr ⟨i, h⟩
  · rintro (h | ⟨i, h⟩)
    · exact ⟨0, h⟩
    · exact ⟨i + 1, h⟩

theorem take_replicate_mono {p : Player} {l : List (Option Player)} {k k' : Nat}
    (h : l.take k = List.replicate k (some p)) (hk : k' ≤ k) :
    l.take k' = List.replicate k' (some p) := by
  have h2 : l.take k' = (l.take k).take k' := by
    rw [List.take_take, Nat.min_eq_left hk]
  rw [h2, h, List.take_replicate, Nat.min_eq_left hk]

theorem containsRun_of_take {z : Nat} {p : Player} {l : List (Option Player)}
    (h : l.take z = List.replicate z (some p)) : containsRun z p l :=
  ⟨0, by simpa using h⟩

/-- Invariant of the run counter: with `r ≤ z` cells of the current run
already counted, the scan succeeds exactly when the remaining cells start
with `z - r` further run cells, or contain a fresh full run of length `z`. -/
theorem scanLine_iff (z : Nat) (p : Player) (l : List (Option Player)) :
    ∀ (r : Nat), r ≤ z →
      (scanLine z p r l = true ↔
        l.take (z - r) = List.replicate (z - r) (some p) ∨ containsRun z p l) := by
  induction l with
  | nil =>
    intro r hr
    simp only [scanLine, beq_iff_eq, decide_eq_true_eq, List.take_nil]
    constructor
    · intro h
      left
      rw [h, Nat.sub_self, List.replicate_zero]
    · rintro (h | ⟨i, h⟩)
      · have h0 : z - r = 0 := by
          by_contra hne
          rw [show z - r = (z - r - 1) + 1 by omega, List.replicate_succ] at h
          exact List.cons_ne_nil _ _ h.symm
        omega
      · have h0 : z = 0 := by
          rw [List.drop_nil, List.take_nil] at h
          exact (List.replicate_eq_nil_iff (a := some p)).mp h.symm
        omega
  | cons f t ih =>
    intro r hr
    rcases Nat.lt_or_ge r z with hlt | hge
    · have hne : (r == z) = false := by simp [Nat.ne_of_lt hlt]
      have hunfold : scanLine z p r (f :: t) =
          scanLine z p (if f = some p then r + 1 else 0) t := by
        simp [scanLine, hne]
      have hzr : z - r = (z - (r + 1)) + 1 := by omega
      by_cases hf : f = some p
      · rw [hunfold, if_pos hf, ih (r + 1) hlt, hf]
        constructor
        · rintro (h | h)
          · left
            rw [hzr, List.take_succ_cons, List.replicate_succ, h]
          · exact Or.inr ((containsRun_cons z p (some p) t).mpr (Or.inr h))
        · rintro (h | h)
          · left
            rw [hzr, List.take_succ_cons, List.replicate_succ] at h
            exact (List.cons_eq_cons.mp h).2
          · rcases (containsRun_cons z p (some p) t).mp h with h2 | h2
            · rcases Nat.eq_zero_or_pos z with hz | hz
              · omega
              · left
                rw [show z = (z - 1) + 1 by omega, List.take_succ_cons,
                  List.replicate_succ] at h2
                exact take_replicate_mono (List.cons_eq_cons.mp h2).2 (by omega)
            · exact Or.inr h2
      · rw [hunfold, if_neg hf, ih 0 (Nat.zero_le z), Nat.sub_zero]
        constructor
        · rintro (h | h)
          · exact Or.inr ((containsRun_cons z p f t).mpr
              (Or.inr (containsRun_of_take h)))
          · exact Or.inr ((containsRun_cons z p f t).mpr (Or.inr h))
        · rintro (h | h)
          · exfalso
            rw [hzr, List.take_succ_cons, List.replicate_succ] at h
            exact hf (List.cons_eq_cons.mp h).1
          · rcases (containsRun_cons z p f t).mp h with h2 | h2
            · exfalso
              rw [show z = (z - 1) + 1 by omega, List.take_succ_cons,
                List.replicate_succ] at h2
              exact hf (List.cons_eq_cons.mp h2).1
            · exact Or.inr h2
    · have hrz : r = z := Nat.le_antisymm hr hge
      subst hrz
      constructor
      · intro _
        left
        rw [Nat.sub_self, List.take_zero, List.replicate_zero]
      · intro _
        simp [scanLine]

theorem scanLine_zero_iff (z : Nat) (p : Player) (l : List (Option Player)) :
    scanLine z p 0 l = true ↔ containsRun z p l := by
  rw [scanLine_iff z p l 0 (Nat.zero_le z), Nat.sub_zero]
  constructor
  · rintro (h | h)
    · exact containsRun_of_take h
    · exact h
  · exact Or.inr

theorem check_line_eq_some_iff (z : Nat) (line : List (Option Player)) (p : Player) :
    check_for_result_in_line z line p = some (playerResult p) ↔ containsRun z p line := by
  rw [check_for_result_in_line, ← scanLine_zero_iff z p line]
  by_cases h : scanLine z p 0 line = true
  · simp [h]
  · simp [h]

theorem check_line_isSome_iff (z : Nat) (line : List (Option Player)) (p : Player) :
    (check_for_result_in_line z line p).isSome = true ↔ containsRun z p line := by
  rw [check_for_result_in_line, ← scanLine_zero_iff z p line]
  by_cases h : scanLine z p 0 line = true
  · simp [h]
  · simp [h]

theorem check_line_result {z : Nat} {line : List (Option Player)} {p : Player}
    {r : GameResult} (h : check_for_result_in_line z line p = some r) :
    r = playerResult p := by
  rw [check_for_result_in_line] at h
  by_cases hs : scanLine z p 0 line = true
  · rw [if_pos hs] at h
    exact (Option.some_inj.mp h).symm
  · rw [if_neg hs] at h
    exact absurd h (Option.some_ne_none r).symm

theorem playerResult_ne_draw (p : Player) : playerResult p ≠ GameResult.DRAW := by
  cases p <;> simp [playerResult]

theorem hasWinningLine_iff (s : ConnectZState) (p : Player) :
    hasWinningLine s p = true ↔ ∃ line ∈ possible_lines s, containsRun s.z p line := by
  rw [hasWinningLine, List.any_eq_true]
  constructor
  · rintro ⟨line, hm, hsome⟩
    exact ⟨line, hm, (check_line_isSome_iff _ _ _).mp hsome⟩
  · rintro ⟨line, hm, hr⟩
    exact ⟨line, hm, (check_line_isSome_iff _ _ _).mpr hr⟩

theorem findSome_check_eq_none_iff (s : ConnectZState) (p : Player) :
    (possible_lines s).findSome?
        (fun line => check_for_result_in_line s.z line p) = none ↔
      hasWinningLine s p = false := by
  rw [List.findSome?_eq_none_iff, hasWinningLine, List.any_eq_false]
  constructor
  · intro h line hm
    rw [h line hm]
    simp
  · intro h line hm
    have h2 := h line hm
    rcases hopt : check_for_result_in_line s.z line p with _ | r
    · rfl
    · rw [hopt] at h2
      simp at h2

theorem findSome_eq_some_exists {α β : Type} {f : α → Option β} {l : List α}
    {r : β} (h : l.findSome? f = some r) : ∃ a ∈ l, f a = some r := by
  induction l with
  | nil => exact absurd h (by simp)
  | cons a t ih =>
    rw [List.findSome?_cons] at h
    rcases ha : f a with _ | b
    · rw [ha] at h
      obtain ⟨w, hw, hfw⟩ := ih h
      exact ⟨w, List.mem_cons_of_mem a hw, hfw⟩
    · rw [ha] at h
      exact ⟨a, List.mem_cons_self a t, by rw [ha]; exact h⟩

theorem check_for_result_eq_none_iff (s : ConnectZState) (p : Player) :
    check_for_result s p = none ↔
      hasWinningLine s p = false ∧ check_for_draw s = false := by
  rw [check_for_result]
  rcases hfind : (possible_lines s).findSome?
      (fun line => check_for_result_in_line s.z line p) with _ | r
  · have hwin : hasWinningLine s p = false :=
      (findSome_check_eq_none_iff s p).mp hfind
    by_cases hd : check_for_draw s
    · simp [hwin, hd]
    · simp [hwin, hd]
  · have hwin : hasWinningLine s p = true := by
      rcases Bool.eq_false_or_eq_true (hasWinningLine s p) with ht | hf
      · exact ht
      · rw [(findSome_check_eq_none_iff s p).mpr hf] at hfind
        exact Option.noConfusion hfind
    simp [hwin]

theorem check_for_result_eq_draw_iff (s : ConnectZState) (p : Player) :
    check_for_result s p = some GameResult.DRAW ↔
      hasWinningLine s p = false ∧ check_for_draw s = true := by
  rw [check_for_result]
  rcases hfind : (possible_lines s).findSome?
      (fun line => check_for_result_in_line s.z line p) with _ | r
  · have hwin : hasWinningLine s p = false :=
      (findSome_check_eq_none_iff s p).mp hfind
    by_cases hd : check_for_draw s
    · simp [hwin, hd]
    · simp [hwin, hd]
  · have hwin : hasWinningLine s p = true := by
      rcases Bool.eq_false_or_eq_true (hasWinningLine s p) with ht | hf
      · exact ht
      · rw [(findSome_check_eq_none_iff s p).mpr hf] at hfind
        exact Option.noConfusion hfind
    obtain ⟨line, -, hline⟩ := findSome_eq_some_exists hfind
    have hr : r = playerResult p := check_line_result hline
    constructor
    · intro hcontra
      exact absurd (by rw [← hr]; exact Option.some_inj.mp hcontra)
        (playerResult_ne_draw p)
    · rintro ⟨hw, -⟩
      rw [hwin] at hw
      exact Bool.noConfusion hw

theorem check_for_result_isSome_iff (s : ConnectZState) (p : Player) :
    (check_for_result s p).isSome = true ↔
      (hasWinningLine s p = true ∨ check_for_draw s = true) := by
  rcases hopt : check_for_result s p with _ | r
  · rw [check_for_result_eq_none_iff] at hopt
    simp [hopt.1, hopt.2]
  · have hne : ¬(hasWinningLine s p = false ∧ check_for_draw s = false) := by
      rw [← check_for_result_eq_none_iff, hopt]
      exact fun hc => Option.noConfusion hc
    simp only [Option.isSome_some, true_iff]
    rcases Bool.eq_false_or_eq_true (hasWinningLine s p) with ht | hf
    · exact Or.inl ht
    · rcases Bool.eq_false_or_eq_true (check_for_draw s) with hdt | hdf
      · exact Or.inr hdt
      · exact absurd ⟨hf, hdf⟩ hne

theorem put_disc_ok_inv {s : ConnectZState} {player : Player} {column : Int}
    {u : Unit} {s2 : ConnectZState}
    (h : put_disc s player column = (Except.ok u, s2)) :
    (0 < column ∧ column ≤ (s.x : Int)) ∧
    (s.grid.getD (column - 1).toNat []).length < s.y ∧
    s2 = { s with grid := s.grid.set (column - 1).toNat (s.grid.getD (column - 1).toNat [] ++ [player]) } := by
  rw [put_disc] at h
  by_cases h1 : 0 < column ∧ column ≤ (s.x : Int)
  · rw [if_neg (not_not_intro h1)] at h
    by_cases h2 : s.y ≤ (s.grid.getD (column - 1).toNat []).length
    · rw [if_pos h2] at h
      exact absurd (congrArg Prod.fst h) (by simp)
    · rw [if_neg h2] at h
      exact ⟨h1, Nat.lt_of_not_le h2, (congrArg Prod.snd h).symm⟩
  · rw [if_pos h1] at h
    exact absurd (congrArg Prod.fst h) (by simp)

theorem put_disc_error_state {s : ConnectZState} {player : Player} {column : Int}
    {e : Failure} {s2 : ConnectZState}
    (h : put_disc s player column = (Except.error e, s2)) : s2 = s := by
  rw [put_disc] at h
  by_cases h1 : 0 < column ∧ column ≤ (s.x : Int)
  · rw [if_neg (not_not_intro h1)] at h
    by_cases h2 : s.y ≤ (s.grid.getD (column - 1).toNat []).length
    · rw [if_pos h2] at h
      exact (congrArg Prod.snd h).symm
    · rw [if_neg h2] at h
      exact absurd (congrArg Prod.fst h) (by simp)
  · rw [if_pos h1] at h
    exact (congrArg Prod.snd h).symm


theorem get_or_none_put {s s2 : ConnectZState} {player : Player} {column : Int}
    (h : put_disc s player column = (Except.ok (), s2)) (a b : Nat) :
    get_or_none s2 a b = get_or_none s a b ∨ get_or_none s2 a b = some player := by
  obtain ⟨-, -, hs2⟩ := put_disc_ok_inv h
  have hgrid : s2.grid = s.grid.set (column - 1).toNat
      (s.grid.getD (column - 1).toNat [] ++ [player]) := by rw [hs2]
  rw [get_or_none, get_or_none, hgrid]
  by_cases ha : a = (column - 1).toNat
  · rw [← ha]
    by_cases hlen : a < s.grid.length
    · have hcol : (s.grid.set a (s.grid.getD a [] ++ [player])).getD a [] =
          s.grid.getD a [] ++ [player] := by
        rw [List.getD_eq_getElem?_getD, List.getElem?_set_self hlen]
        rfl
      rw [hcol]
      rcases Nat.lt_trichotomy b (s.grid.getD a []).length with hb | hb | hb
      · left
        rw [List.getElem?_append, if_pos hb]
      · right
        rw [List.getElem?_append, if_neg (by omega), hb, Nat.sub_self]
        rfl
      · left
        rw [List.getElem?_append, if_neg (by omega),
          List.getElem?_eq_none (l := [player]) (by rw [List.length_singleton]; omega),
          List.getElem?_eq_none (by omega)]
    · left
      rw [List.set_eq_of_length_le (Nat.le_of_not_lt hlen)]
  · left
    rw [List.getD_eq_getElem?_getD, List.getElem?_set_ne (fun hc => ha hc.symm),
      ← List.getD_eq_getElem?_getD]

theorem containsRun_mono_pointwise {z : Nat} {q player : Player} (hq : q ≠ player)
    {l l2 : List (Option Player)}
    (hpt : ∀ j : Nat, l2[j]? = l[j]? ∨ l2[j]? = some (some player))
    (h : containsRun z q l2) : containsRun z q l := by
  rw [containsRun_iff_getElem] at h ⊢
  obtain ⟨i, hi⟩ := h
  refine ⟨i, fun j hj => ?_⟩
  rcases hpt (i + j) with he | he
  · rw [← he]
    exact hi j hj
  · rw [hi j hj] at he
    exact absurd (Option.some_inj.mp (Option.some_inj.mp he)) hq

theorem map_line_pointwise {α : Type} {g g2 : α → Option Player} {player : Player}
    (hcell : ∀ a : α, g2 a = g a ∨ g2 a = some player) (coords : List α) (j : Nat) :
    (coords.map g2)[j]? = (coords.map g)[j]? ∨
      (coords.map g2)[j]? = some (some player) := by
  rw [List.getElem?_map, List.getElem?_map]
  rcases hc : coords[j]? with _ | a
  · left
    rfl
  · rcases hcell a with he | he
    · left
      simp [he]
    · right
      simp [he]

theorem append_map_some_pointwise (old : List Player) (player : Player) (j : Nat) :
    ((old ++ [player]).map some)[j]? = (old.map some)[j]? ∨
      ((old ++ [player]).map some)[j]? = some (some player) := by
  rw [List.getElem?_map, List.getElem?_map, List.getElem?_append]
  rcases Nat.lt_trichotomy j old.length with hj | hj | hj
  · left
    rw [if_pos hj]
  · right
    rw [if_neg (by omega), hj, Nat.sub_self]
    rfl
  · left
    rw [if_neg (by omega), List.getElem?_eq_none (l := [player]) (by rw [List.length_singleton]; omega),
      List.getElem?_eq_none (by omega)]

theorem diagonals_fields (s s2 : ConnectZState) (hx : s2.x = s.x) (hy : s2.y = s.y)
    (hz : s2.z = s.z) : diagonals s2 = diagonals s := by
  rw [diagonals, diagonals, hx, hy, hz]

theorem getD_mem_of_lt {l : List (List Player)} {i : Nat} (h : i < l.length) :
    l.getD i [] ∈ l := by
  rw [List.getD_eq_getElem?_getD, List.getElem?_eq_getElem h]
  exact List.getElem_mem h

/-- A disc placed by `player` never creates a winning line for the other
player: every line of the new grid agrees with the corresponding old line
except for cells that now read `player`. -/
theorem hasWinningLine_put_disc {s s2 : ConnectZState} {player q : Player}
    {column : Int} (h : put_disc s player column = (Except.ok (), s2))
    (hq : q ≠ player) (hw : hasWinningLine s2 q = true) :
    hasWinningLine s q = true := by
  obtain ⟨-, -, hs2⟩ := put_disc_ok_inv h
  have hx : s2.x = s.x := by rw [hs2]
  have hy : s2.y = s.y := by rw [hs2]
  have hz : s2.z = s.z := by rw [hs2]
  by_cases hlen : (column - 1).toNat < s.grid.length
  case neg =>
    have hss : s2 = s := by
      rw [hs2, List.set_eq_of_length_le (Nat.le_of_not_lt hlen)]
    rwa [hss] at hw
  case pos =>
    have hcell := get_or_none_put h
    rw [hasWinningLine_iff] at hw ⊢
    obtain ⟨line2, hm2, hr2⟩ := hw
    rw [hz] at hr2
    rw [possible_lines] at hm2
    rcases List.mem_append.mp hm2 with hmCR | hmD
    case inl =>
      rcases List.mem_append.mp hmCR with hmC | hmR
      case inl =>
        obtain ⟨c, hc, hline⟩ := List.mem_map.mp hmC
        have hgrid : s2.grid = s.grid.set (column - 1).toNat
            (s.grid.getD (column - 1).toNat [] ++ [player]) := by rw [hs2]
        rw [hgrid] at hc
        rcases List.mem_or_eq_of_mem_set hc with hcs | hcnew
        · refine ⟨line2, ?_, hr2⟩
          rw [possible_lines]
          exact List.mem_append.mpr (Or.inl (List.mem_append.mpr
            (Or.inl (List.mem_map.mpr ⟨c, hcs, hline⟩))))
        · subst hcnew
          refine ⟨(s.grid.getD (column - 1).toNat []).map some, ?_, ?_⟩
          · rw [possible_lines]
            exact List.mem_append.mpr (Or.inl (List.mem_append.mpr
              (Or.inl (List.mem_map.mpr ⟨_, getD_mem_of_lt hlen, rfl⟩))))
          · subst hline
            exact containsRun_mono_pointwise hq
              (append_map_some_pointwise (s.grid.getD (column - 1).toNat []) player) hr2
      case inr =>
        obtain ⟨y0, hy0, hline⟩ := List.mem_map.mp hmR
        refine ⟨(List.range s.x).map (fun x => get_or_none s x y0), ?_, ?_⟩
        · rw [possible_lines]
          refine List.mem_append.mpr (Or.inl (List.mem_append.mpr
            (Or.inr (List.mem_map.mpr ⟨y0, ?_, rfl⟩))))
          rw [← hy]
          exact hy0
        · subst hline
          rw [hx] at hr2
          exact containsRun_mono_pointwise hq
            (map_line_pointwise (fun a => hcell a y0) (List.range s.x)) hr2
    case inr =>
      obtain ⟨d, hd, hline⟩ := List.mem_map.mp hmD
      refine ⟨d.map (fun xy => get_or_none s xy.1 xy.2), ?_, ?_⟩
      · rw [possible_lines]
        refine List.mem_append.mpr (Or.inr (List.mem_map.mpr ⟨d, ?_, rfl⟩))
        rw [← diagonals_fields s s2 hx hy hz]
        exact hd
      · subst hline
        exact containsRun_mono_pointwise hq
          (map_line_pointwise (fun xy => hcell xy.1 xy.2) d) hr2

theorem get_second_user_ne_self (p : Player) : get_second_user p ≠ p := by
  cases p <;> simp [get_second_user]

theorem player_eq_or_eq_second (q p : Player) : q = p ∨ q = get_second_user p := by
  cases q <;> cases p <;> simp [get_second_user]

theorem playAux_fields (moves : List Int) :
    ∀ (s : ConnectZState) (cur : Player) (last : Option Player)
      (s2 : ConnectZState) (l2 : Option Player),
      playAux s cur last moves = Except.ok (s2, l2) →
      s2.x = s.x ∧ s2.y = s.y ∧ s2.z = s.z := by
  induction moves with
  | nil =>
    intro s cur last s2 l2 h
    rw [playAux] at h
    simp only [Except.ok.injEq, Prod.mk.injEq] at h
    obtain ⟨rfl, -⟩ := h
    exact ⟨rfl, rfl, rfl⟩
  | cons c rest ih =>
    intro s cur last s2 l2 h
    rw [playAux] at h
    by_cases hchk : (check_for_result s (get_second_user cur)).isSome = true
    · rw [if_pos hchk] at h
      exact absurd h (by simp)
    · rw [if_neg hchk] at h
      rcases hput : put_disc s cur c with ⟨res, s1⟩
      rw [hput] at h
      rcases res with e | u
      · simp at h
      · obtain ⟨hx, hy, hz⟩ := ih s1 (get_second_user cur) (some cur) s2 l2 h
        obtain ⟨-, -, hs1⟩ := put_disc_ok_inv hput
        rw [hs1] at hx hy hz
        exact ⟨hx, hy, hz⟩

theorem playAux_ne_nil {s : ConnectZState} {cur : Player} {s2 : ConnectZState}
    {p : Player} {moves : List Int}
    (h : playAux s cur none moves = Except.ok (s2, some p)) : moves ≠ [] := by
  intro hnil
  subst hnil
  rw [playAux] at h
  simp at h

/-- After a completed move loop with at least one move, the opponent of the
last mover has no winning line: the loop checked that before the final move,
and the final move was placed by the last mover, which cannot create a line
for the opponent. -/
theorem playAux_last_not_won (moves : List Int) :
    ∀ (s : ConnectZState) (cur : Player) (last : Option Player)
      (s2 : ConnectZState) (p : Player),
      playAux s cur last moves = Except.ok (s2, some p) → moves ≠ [] →
      hasWinningLine s2 (get_second_user p) = false := by
  induction moves with
  | nil =>
    intro s cur last s2 p h hne
    exact absurd rfl hne
  | cons c rest ih =>
    intro s cur last s2 p h _
    rw [playAux] at h
    by_cases hchk : (check_for_result s (get_second_user cur)).isSome = true
    · rw [if_pos hchk] at h
      exact absurd h (by simp)
    · rw [if_neg hchk] at h
      rcases hput : put_disc s cur c with ⟨res, s1⟩
      rw [hput] at h
      rcases res with e | u
      · simp at h
      · rcases Decidable.em (rest = []) with hrest | hrest
        · subst hrest
          simp only [playAux, Except.ok.injEq, Prod.mk.injEq, Option.some.injEq] at h
          obtain ⟨rfl, rfl⟩ := h
          have hnone : check_for_result s (get_second_user cur) = none := by
            rcases hc : check_for_result s (get_second_user cur) with _ | r
            · rfl
            · rw [hc] at hchk
              simp at hchk
          have hwin := (check_for_result_eq_none_iff s (get_second_user cur)).mp hnone
          rcases Bool.eq_false_or_eq_true
              (hasWinningLine s1 (get_second_user cur)) with ht | hf
          · exfalso
            have hmono := hasWinningLine_put_disc hput (get_second_user_ne_self cur) ht
            rw [hwin.1] at hmono
            exact Bool.noConfusion hmono
          · exact hf
        · exact ih s1 (get_second_user cur) (some cur) s2 p h hrest

/-- C7: `play()` returns DRAW if and only if the move loop completes, and
after the last move every column holds exactly `y` discs and no player has
`z` consecutive discs in any scanned line (column, row, or diagonal). -/
theorem play_draw_iff (x y z : Nat) (moves : List Int) :
    play x y z moves = Except.ok GameResult.DRAW ↔
      ∃ s p, playAux (initState x y z) Player.FIRST none moves = Except.ok (s, some p)
        ∧ (∀ c ∈ s.grid, c.length = y)
        ∧ ∀ q, ¬ ∃ line ∈ possible_lines s, containsRun z q line := by
  constructor
  · intro h
    unfold play at h
    rcases haux : playAux (initState x y z) Player.FIRST none moves with e | ⟨s, l⟩
    · rw [haux] at h
      exact absurd h (by simp)
    · rw [haux] at h
      rcases l with _ | p
      · simp at h
      · have h2 : (match check_for_result s p with
            | none => Except.error Failure.LackOfResult
            | some result => Except.ok result) = Except.ok GameResult.DRAW := h
        rcases hres : check_for_result s p with _ | r
        · rw [hres] at h2
          simp at h2
        · rw [hres] at h2
          have hr : r = GameResult.DRAW := by simpa using h2
          subst hr
          obtain ⟨hwp, hdraw⟩ := (check_for_result_eq_draw_iff s p).mp hres
          obtain ⟨hx2, hy2, hz2⟩ :=
            playAux_fields moves (initState x y z) Player.FIRST none s (some p) haux
          have hyy : s.y = y := hy2
          refine ⟨s, p, rfl, ?_, ?_⟩
          · intro c hc
            have hcl := List.all_eq_true.mp hdraw c hc
            simp only [beq_iff_eq] at hcl
            rw [← hyy]
            exact hcl
          · intro q hex
            have hzz : s.z = z := hz2
            rcases player_eq_or_eq_second q p with rfl | hq2
            · have hq := (hasWinningLine_iff s q).mpr (by rw [hzz]; exact hex)
              rw [hwp] at hq
              exact Bool.noConfusion hq
            · have hlast := playAux_last_not_won moves (initState x y z)
                Player.FIRST none s p haux (playAux_ne_nil haux)
              have hq := (hasWinningLine_iff s q).mpr (by rw [hzz]; exact hex)
              rw [hq2, hlast] at hq
              exact Bool.noConfusion hq
  · rintro ⟨s, p, haux, hfull, hnowin⟩
    obtain ⟨hx2, hy2, hz2⟩ :=
      playAux_fields moves (initState x y z) Player.FIRST none s (some p) haux
    have hyy : s.y = y := hy2
    have hzz : s.z = z := hz2
    have hwp : hasWinningLine s p = false := by
      rcases Bool.eq_false_or_eq_true (hasWinningLine s p) with ht | hf
      · exfalso
        obtain ⟨line, hm, hr⟩ := (hasWinningLine_iff s p).mp ht
        exact hnowin p ⟨line, hm, by rw [← hzz]; exact hr⟩
      · exact hf
    have hdraw : check_for_draw s = true := by
      rw [check_for_draw, List.all_eq_true]
      intro c hc
      rw [hfull c hc, hyy]
      exact beq_self_eq_true y
    have hres : check_for_result s p = some GameResult.DRAW :=
      (check_for_result_eq_draw_iff s p).mpr ⟨hwp, hdraw⟩
    unfold play
    rw [haux]
    show (match check_for_result s p with
      | none => Except.error Failure.LackOfResult
      | some result => Except.ok result) = Except.ok GameResult.DRAW
    rw [hres]

theorem getElem?_zip_eq {α β : Type} (l1 : List α) :
    ∀ (l2 : List β) (i : Nat),
      (List.zip l1 l2)[i]? =
        match l1[i]?, l2[i]? with
        | some a, some b => some (a, b)
        | _, _ => none := by
  induction l1 with
  | nil =>
    intro l2 i
    simp
  | cons a as ih =>
    intro l2 i
    cases l2 with
    | nil => simp
    | cons b bs =>
      cases i with
      | zero => simp [List.zip_cons_cons]
      | succ i => simp [List.zip_cons_cons, ih bs i]

theorem zip_map_range (f g : Nat → Nat) (m n : Nat) :
    List.zip ((List.range m).map f) ((List.range n).map g) =
      (List.range (min m n)).map (fun k => (f k, g k)) := by
  apply List.ext_getElem?
  intro i
  rw [getElem?_zip_eq]
  by_cases h1 : i < m
  · by_cases h2 : i < n
    · rw [List.getElem?_map, List.getElem?_map, List.getElem?_map,
        List.getElem?_range h1, List.getElem?_range h2,
        List.getElem?_range (show i < min m n by omega)]
      rfl
    · rw [List.getElem?_map, List.getElem?_map, List.getElem?_map,
        List.getElem?_range h1,
        List.getElem?_eq_none (l := List.range n) (by simp; omega),
        List.getElem?_eq_none (l := List.range (min m n)) (by simp; omega)]
      rfl
  · rw [List.getElem?_map, List.getElem?_map, List.getElem?_map,
      List.getElem?_eq_none (l := List.range m) (by simp; omega),
      List.getElem?_eq_none (l := List.range (min m n)) (by simp; omega)]
    rcases hn : (List.range n)[i]? with _ | v
    · rfl
    · rfl

theorem map_range_infix {α : Type} (f : Nat → α) (m d z : Nat) (h : d + z ≤ m) :
    List.IsInfix ((List.range z).map (fun j => f (d + j))) ((List.range m).map f) := by
  refine ⟨(List.range d).map f,
    (List.range (m - (d + z))).map (fun j => f (d + z + j)), ?_⟩
  rw [show m = d + z + (m - (d + z)) by omega, List.range_add, List.range_add]
  simp only [List.map_append, List.map_map, Function.comp_def, Nat.add_assoc,
    List.append_assoc]
  rw [show d + (z + (m - (d + z))) - (d + z) = m - (d + z) by omega]

/-- C6: every diagonal segment of exactly `z` cells on the board, of either
slope, is a contiguous part of one of the lines produced by the diagonal
enumeration.  An ascending segment starts at `(a, b)` and visits
`(a + j, b + j)`; a descending one visits `(a - j, b + j)`. -/
theorem diagonal_segment_covered (s : ConnectZState) (a b : Nat) (hz : 1 ≤ s.z) :
    (a + s.z ≤ s.x → b + s.z ≤ s.y →
      ∃ d ∈ diagonals s,
        List.IsInfix ((List.range s.z).map (fun j => (a + j, b + j))) d)
    ∧ (s.z ≤ a + 1 → a < s.x → b + s.z ≤ s.y →
      ∃ d ∈ diagonals s,
        List.IsInfix ((List.range s.z).map (fun j => (a - j, b + j))) d) := by
  constructor
  · intro hax hby
    refine ⟨List.zip (pyRange (a - min a b) s.x) (pyRange (b - min a b) s.y),
      ?_, ?_⟩
    · rw [diagonals]
      refine List.mem_flatMap.mpr ⟨a - min a b, List.mem_range.mpr (by omega), ?_⟩
      refine List.mem_flatMap.mpr ⟨b - min a b, List.mem_range.mpr (by omega), ?_⟩
      simp
    · rw [pyRange, pyRange, zip_map_range]
      have hseg : (List.range s.z).map (fun j => (a + j, b + j)) =
          (List.range s.z).map
            (fun j => ((a - min a b) + (min a b + j), (b - min a b) + (min a b + j))) := by
        apply List.map_congr_left
        intro j _
        have h1 : min a b ≤ a := Nat.min_le_left a b
        have h2 : min a b ≤ b := Nat.min_le_right a b
        simp only [Prod.mk.injEq]
        omega
      rw [hseg]
      exact map_range_infix (fun k => ((a - min a b) + k, (b - min a b) + k))
        (min (s.x - (a - min a b)) (s.y - (b - min a b))) (min a b) s.z (by omega)
  · intro hza hax hby
    refine ⟨List.zip
        (pyRangeDown (s.x - 1 - (s.x - 1 - a - min (s.x - 1 - a) b)))
        (pyRange (b - min (s.x - 1 - a) b) s.y), ?_, ?_⟩
    · rw [diagonals]
      refine List.mem_flatMap.mpr
        ⟨s.x - 1 - a - min (s.x - 1 - a) b, List.mem_range.mpr (by omega), ?_⟩
      refine List.mem_flatMap.mpr
        ⟨b - min (s.x - 1 - a) b, List.mem_range.mpr (by omega), ?_⟩
      simp
    · rw [show s.x - 1 - (s.x - 1 - a - min (s.x - 1 - a) b) =
          a + min (s.x - 1 - a) b by omega]
      rw [pyRangeDown, pyRange, zip_map_range]
      have hseg : (List.range s.z).map (fun j => (a - j, b + j)) =
          (List.range s.z).map
            (fun j => ((a + min (s.x - 1 - a) b) - (min (s.x - 1 - a) b + j),
              (b - min (s.x - 1 - a) b) + (min (s.x - 1 - a) b + j))) := by
        apply List.map_congr_left
        intro j hj
        have hjz : j < s.z := List.mem_range.mp hj
        simp only [Prod.mk.injEq]
        omega
      rw [hseg]
      exact map_range_infix
        (fun k => ((a + min (s.x - 1 - a) b) - k, (b - min (s.x - 1 - a) b) + k))
        (min ((a + min (s.x - 1 - a) b) + 1) (s.y - (b - min (s.x - 1 - a) b)))
        (min (s.x - 1 - a) b) s.z (by omega)


theorem splitNl_ne_nil : ∀ (s : List Char), splitNl s ≠ [] := by
  intro s
  cases s with
  | nil => simp [splitNl]
  | cons c rest =>
    rw [splitNl]
    rcases h : splitNl rest with _ | ⟨seg, segs⟩
    · by_cases hc : c = '\n' <;> simp [hc]
    · by_cases hc : c = '\n' <;> simp [hc]

theorem splitNl_append_newline : ∀ (s : List Char),
    splitNl (s ++ ['\n']) = splitNl s ++ [[]] := by
  intro s
  induction s with
  | nil => rfl
  | cons c rest ih =>
    show splitNl (c :: (rest ++ ['\n'])) = _
    rw [splitNl, ih]
    rcases h : splitNl rest with _ | ⟨seg, segs⟩
    · exact absurd h (splitNl_ne_nil rest)
    · rw [splitNl, h]
      by_cases hc : c = '\n'
      · simp [hc]
      · simp [hc]

theorem splitNl_getLast_ne : ∀ (s : List Char), s ≠ [] →
    s.getLast? ≠ some '\n' → (splitNl s).getLast? ≠ some [] := by
  intro s
  induction s with
  | nil => intro h; exact absurd rfl h
  | cons c rest ih =>
    intro _ hlast
    cases rest with
    | nil =>
      have hc : c ≠ '\n' := fun h => hlast (by rw [h]; rfl)
      simp [splitNl, hc]
    | cons c2 rest2 =>
      have hlast2 : (c2 :: rest2).getLast? ≠ some '\n' := by
        rw [List.getLast?_cons_cons] at hlast
        exact hlast
      have ih2 := ih (List.cons_ne_nil c2 rest2) hlast2
      rcases h : splitNl (c2 :: rest2) with _ | ⟨seg, segs⟩
      · exact absurd h (splitNl_ne_nil (c2 :: rest2))
      · rw [h] at ih2
        rw [splitNl, h]
        show (if c = '\n' then [] :: seg :: segs else (c :: seg) :: segs).getLast? ≠ some []
        by_cases hc : c = '\n'
        · rw [if_pos hc, List.getLast?_cons_cons]
          exact ih2
        · rw [if_neg hc]
          rcases segs with _ | ⟨s1, srest⟩
          · simp
          · rw [List.getLast?_cons_cons]
            rw [List.getLast?_cons_cons] at ih2
            exact ih2

theorem pyLines_append_newline {s : List Char} (hne : s ≠ [])
    (hlast : s.getLast? ≠ some '\n') : pyLines (s ++ ['\n']) = pyLines s := by
  simp only [pyLines]
  rw [splitNl_append_newline, if_pos (List.getLast?_concat _),
    List.dropLast_concat, if_neg (splitNl_getLast_ne s hne hlast)]

theorem parseMoves_eq_none {ls : List (List Char)} {l : List Char}
    (hm : l ∈ ls) (hl : pyInt l = none) : parseMoves ls = none := by
  induction ls with
  | nil => cases hm
  | cons a t ih =>
    rw [parseMoves]
    rcases List.mem_cons.mp hm with rfl | hmem
    · rw [hl]
    · rw [ih hmem]
      rcases hpa : pyInt a with _ | n
      · rfl
      · rfl

theorem initConnectZ_parsing {input : List Char}
    (h : parseMoves ((pyLines input).drop 1) = none) :
    initConnectZ input = Except.error Failure.ParsingProblem := by
  rw [initConnectZ]
  rcases hps : (pySplit ((pyLines input).headD [])).map pyInt with _ | ⟨o1, r1⟩
  · rfl
  · rcases o1 with _ | v1
    · rfl
    · rcases r1 with _ | ⟨o2, r2⟩
      · rfl
      · rcases o2 with _ | v2
        · rfl
        · rcases r2 with _ | ⟨o3, r3⟩
          · rfl
          · rcases o3 with _ | v3
            · rfl
            · rcases r3 with _ | ⟨o4, r4⟩
              · rw [h]
              · rfl

/-- C1 (code bug): on a valid configuration with zero moves the loop of
`ConnectZ.play` never runs, the loop variable `player` is never bound, and
line 136 raises `UnboundLocalError` (modelled `Failure.NameError`), which no
`__main__` handler catches — not the missing-result failure that would map
to exit code 3. -/
theorem zero_moves_unbound_player :
    connectz inputZeroMoves = Except.error Failure.NameError
    ∧ exitCode (connectz inputZeroMoves) = none
    ∧ connectz inputZeroMoves ≠ Except.error Failure.LackOfResult := by
  refine ⟨rfl, rfl, ?_⟩
  intro h
  rw [show connectz inputZeroMoves = Except.error Failure.NameError from rfl] at h
  exact absurd h (by simp)

/-- C2 counterexample: on `"3 1 3\n1\n2\n3\n1"` the first three moves fill
the board with no winner for either player; the fourth move targets a full
column while no player has a winning line, yet the engine raises
too-many-moves (the pre-move check is `_check_for_result`, whose draw branch
is truthy on a full board), not column-overflow as the claim requires. -/
theorem too_many_moves_counterexample :
    connectz inputFullBoardExtraMove = Except.error Failure.ToManyMoves
    ∧ playAux (initState 3 1 3) Player.FIRST none [1, 2, 3] =
        Except.ok (fullBoardState, some Player.FIRST)
    ∧ hasWinningLine fullBoardState Player.FIRST = false
    ∧ hasWinningLine fullBoardState Player.SECOND = false
    ∧ connectz inputFullBoardExtraMove ≠ Except.error Failure.ColumnToHigh := by
  refine ⟨rfl, rfl, rfl, rfl, ?_⟩
  intro h
  rw [show connectz inputFullBoardExtraMove = Except.error Failure.ToManyMoves
    from rfl] at h
  exact absurd h (by simp)

/-- C2 amended: a move raises too-many-moves iff, at the moment it is about
to be played, the previous mover has a winning line or the board is
completely full; when neither holds the move proceeds to `put_disc`, and a
move whose target column already holds `y` discs then raises
column-overflow. -/
theorem too_many_moves_check (s : ConnectZState) (current : Player)
    (last : Option Player) (column : Int) (rest : List Int) :
    (hasWinningLine s (get_second_user current) = true ∨ check_for_draw s = true →
      playAux s current last (column :: rest) = Except.error Failure.ToManyMoves)
    ∧ (hasWinningLine s (get_second_user current) = false →
      check_for_draw s = false →
      playAux s current last (column :: rest) =
        match put_disc s current column with
        | (Except.error e, _) => Except.error e
        | (Except.ok _, s1) => playAux s1 (get_second_user current) (some current) rest)
    ∧ (hasWinningLine s (get_second_user current) = false →
      check_for_draw s = false → 0 < column → column ≤ (s.x : Int) →
      s.y ≤ (s.grid.getD (column - 1).toNat []).length →
      playAux s current last (column :: rest) = Except.error Failure.ColumnToHigh) := by
  have hstep : playAux s current last (column :: rest) =
      if (check_for_result s (get_second_user current)).isSome then
        Except.error Failure.ToManyMoves
      else
        match put_disc s current column with
        | (Except.error e, _) => Except.error e
        | (Except.ok _, s1) =>
            playAux s1 (get_second_user current) (some current) rest := rfl
  refine ⟨?_, ?_, ?_⟩
  · intro h
    rw [hstep,
      if_pos ((check_for_result_isSome_iff s (get_second_user current)).mpr h)]
  · intro hw hd
    have hns : ¬((check_for_result s (get_second_user current)).isSome = true) := by
      intro hc
      rcases (check_for_result_isSome_iff s (get_second_user current)).mp hc with h | h
      · rw [hw] at h
        exact Bool.noConfusion h
      · rw [hd] at h
        exact Bool.noConfusion h
    rw [hstep, if_neg hns]
  · intro hw hd h1 h2 h3
    have hns : ¬((check_for_result s (get_second_user current)).isSome = true) := by
      intro hc
      rcases (check_for_result_isSome_iff s (get_second_user current)).mp hc with h | h
      · rw [hw] at h
        exact Bool.noConfusion h
      · rw [hd] at h
        exact Bool.noConfusion h
    have hput : put_disc s current column = (Except.error Failure.ColumnToHigh, s) := by
      simp only [put_disc]
      rw [if_neg (not_not_intro ⟨h1, h2⟩), if_pos h3]
    rw [hstep, if_neg hns, hput]

theorem too_many_moves_check_witness :
    playAux fullBoardState Player.SECOND (some Player.FIRST) [1] =
      Except.error Failure.ToManyMoves :=
  (too_many_moves_check fullBoardState Player.SECOND (some Player.FIRST) 1 []).1
    (Or.inr rfl)

/-- C3 counterexample: the spec's scenario `"2 2 2\n1\n1\n2\n2"` does not
end in a draw: the engine raises too-many-moves. -/
theorem scenario2x2_counterexample :
    connectz inputScenario2x2 = Except.error Failure.ToManyMoves
    ∧ connectz inputScenario2x2 ≠ Except.ok GameResult.DRAW
    ∧ exitCode (connectz inputScenario2x2) ≠ some 0 := by
  refine ⟨rfl, ?_, ?_⟩
  · intro h
    rw [show connectz inputScenario2x2 = Except.error Failure.ToManyMoves
      from rfl] at h
    exact absurd h (by simp)
  · intro h
    rw [show exitCode (connectz inputScenario2x2) = some 4 from rfl] at h
    exact absurd h (by simp)

/-- C3 amended: on `"2 2 2\n1\n1\n2\n2"` the third move gives FIRST the
cells (0,0) and (1,0) — a horizontal 2-in-a-row in row 0 — so the fourth
move is illegal: `play()` raises too-many-moves and the process exits with
code 4. -/
theorem scenario2x2_amended :
    playAux (initState 2 2 2) Player.FIRST none [1, 1, 2] =
        Except.ok (scenario2x2After3, some Player.FIRST)
    ∧ hasWinningLine scenario2x2After3 Player.FIRST = true
    ∧ connectz inputScenario2x2 = Except.error Failure.ToManyMoves
    ∧ exitCode (connectz inputScenario2x2) = some 4 :=
  ⟨rfl, rfl, rfl, rfl⟩

/-- C4 counterexample: the input ending in one blank line parses to a
parsing failure (exit code 8), while the same log without the blank line is
a FIRST win — the blank line is not ignored. -/
theorem blank_trailing_line_counterexample :
    connectz inputBlankTrailingLine = Except.error Failure.ParsingProblem
    ∧ connectz inputNoBlankTrailingLine = Except.ok GameResult.FIRST_WON
    ∧ exitCode (connectz inputBlankTrailingLine) = some 8 :=
  ⟨rfl, rfl, rfl⟩

/-- C4 amended: one trailing newline after a non-empty last line yields no
extra line in the line iteration, but a blank line among the move lines is
not ignored: `int()` fails on it, so the engine raises a parsing failure —
exactly as for any other malformed move line. -/
theorem blank_line_is_parsing_failure :
    (∀ s : List Char, s ≠ [] → s.getLast? ≠ some '\n' →
      pyLines (s ++ ['\n']) = pyLines s)
    ∧ (∀ (input l : List Char), l ∈ (pyLines input).drop 1 → pyInt l = none →
      connectzL input = Except.error Failure.ParsingProblem)
    ∧ pyInt [] = none := by
  refine ⟨?_, ?_, rfl⟩
  · intro s hne hlast
    exact pyLines_append_newline hne hlast
  · intro input l hm hl
    have hinit := initConnectZ_parsing (parseMoves_eq_none hm hl)
    rw [connectzL, hinit]

theorem blank_line_is_parsing_failure_witness :
    pyLines (inputNoTrailingNewline.toList ++ ['\n']) =
        pyLines inputNoTrailingNewline.toList
    ∧ connectzL inputBlankTrailingLine.toList =
        Except.error Failure.ParsingProblem := by
  constructor
  · exact blank_line_is_parsing_failure.1 inputNoTrailingNewline.toList
      (by decide) (by decide)
  · exact blank_line_is_parsing_failure.2.1 inputBlankTrailingLine.toList []
      (by decide) rfl

/-- C5: the consecutive-run scan reports a win for a player exactly when
the line holds at least `z` consecutive cells equal to that player, and a
cell at or above a column's fill height reads as `none` (so it can never be
part of a run of `some p` cells). -/
theorem line_scan_win_iff :
    (∀ (z : Nat) (line : List (Option Player)) (p : Player),
      check_for_result_in_line z line p = some (playerResult p) ↔
        containsRun z p line)
    ∧ ∀ (s : ConnectZState) (x y : Nat),
      (s.grid.getD x []).length ≤ y → get_or_none s x y = none := by
  refine ⟨check_line_eq_some_iff, ?_⟩
  intro s x y h
  rw [get_or_none]
  exact List.getElem?_eq_none h

theorem line_scan_win_iff_witness :
    get_or_none { x := 2, y := 2, z := 2, grid := [[Player.FIRST], []] } 0 1 = none :=
  line_scan_win_iff.2 { x := 2, y := 2, z := 2, grid := [[Player.FIRST], []] } 0 1
    (by decide)

theorem diagonal_segment_covered_witness :
    (∃ d ∈ diagonals { x := 3, y := 3, z := 2, grid := [] },
      List.IsInfix ((List.range 2).map (fun j => (1 + j, 0 + j))) d)
    ∧ ∃ d ∈ diagonals { x := 3, y := 3, z := 2, grid := [] },
      List.IsInfix ((List.range 2).map (fun j => (1 - j, 0 + j))) d :=
  ⟨(diagonal_segment_covered { x := 3, y := 3, z := 2, grid := [] } 1 0
      (by decide)).1 (by decide) (by decide),
    (diagonal_segment_covered { x := 3, y := 3, z := 2, grid := [] } 1 0
      (by decide)).2 (by decide) (by decide) (by decide)⟩

/-- C8: a legal `put_disc` appends exactly one disc for the player to the
1-based column `c`: the configuration fields are untouched, that column
grows by the one disc at its end, and every other column is unchanged. -/
theorem put_disc_appends_one_disc (s : ConnectZState) (p : Player) (c : Int)
    (hlen : s.grid.length = s.x) (h1 : 0 < c) (h2 : c ≤ (s.x : Int))
    (h3 : (s.grid.getD (c - 1).toNat []).length < s.y) :
    ∃ s2, put_disc s p c = (Except.ok (), s2)
      ∧ s2.x = s.x ∧ s2.y = s.y ∧ s2.z = s.z
      ∧ s2.grid.length = s.grid.length
      ∧ s2.grid.getD (c - 1).toNat [] = s.grid.getD (c - 1).toNat [] ++ [p]
      ∧ (s2.grid.getD (c - 1).toNat []).length
          = (s.grid.getD (c - 1).toNat []).length + 1
      ∧ (s2.grid.getD (c - 1).toNat []).getLast? = some p
      ∧ ∀ j, j ≠ (c - 1).toNat → s2.grid[j]? = s.grid[j]? := by
  have hidx : (c - 1).toNat < s.grid.length := by
    rw [hlen]
    omega
  have hput : put_disc s p c =
      (Except.ok (), { s with grid := s.grid.set (c - 1).toNat (s.grid.getD (c - 1).toNat [] ++ [p]) }) := by
    simp only [put_disc]
    rw [if_neg (not_not_intro ⟨h1, h2⟩), if_neg (by omega)]
  have hcol : ({ s with grid := s.grid.set (c - 1).toNat (s.grid.getD (c - 1).toNat [] ++ [p]) } : ConnectZState).grid.getD (c - 1).toNat [] = s.grid.getD (c - 1).toNat [] ++ [p] := by
    show (s.grid.set (c - 1).toNat
      (s.grid.getD (c - 1).toNat [] ++ [p])).getD (c - 1).toNat [] = _
    rw [List.getD_eq_getElem?_getD, List.getElem?_set_self hidx]
    rfl
  refine ⟨_, hput, rfl, rfl, rfl, ?_, hcol, ?_, ?_, ?_⟩
  · exact List.length_set s.grid _ _
  · rw [hcol, List.length_append]
    rfl
  · rw [hcol]
    exact List.getLast?_concat _
  · intro j hj
    show (s.grid.set (c - 1).toNat (s.grid.getD (c - 1).toNat [] ++ [p]))[j]? = _
    exact List.getElem?_set_ne (fun hcq => hj hcq.symm)

theorem put_disc_appends_one_disc_witness :
    ∃ s2, put_disc { x := 2, y := 2, z := 2, grid := [[], []] } Player.FIRST 1 =
        (Except.ok (), s2)
      ∧ s2.grid.getD 0 [] = [Player.FIRST] := by
  obtain ⟨s2, hput, -, -, -, -, hcol, -, -, -⟩ :=
    put_disc_appends_one_disc { x := 2, y := 2, z := 2, grid := [[], []] }
      Player.FIRST 1 (by decide) (by decide) (by decide) (by decide)
  exact ⟨s2, hput, hcol⟩

/-- C9: whenever `put_disc` raises (invalid column or column overflow), the
raise happens before the `append`, so the board it leaves behind is exactly
the board it was given. -/
theorem put_disc_failure_leaves_board (s : ConnectZState) (p : Player) (c : Int)
    (e : Failure) (s2 : ConnectZState)
    (h : put_disc s p c = (Except.error e, s2)) : s2 = s :=
  put_disc_error_state h

theorem put_disc_failure_leaves_board_witness :
    ({ x := 2, y := 2, z := 2, grid := [[], []] } : ConnectZState) =
      { x := 2, y := 2, z := 2, grid := [[], []] } :=
  put_disc_failure_leaves_board { x := 2, y := 2, z := 2, grid := [[], []] }
    Player.FIRST 5 Failure.InvalidColumn
    { x := 2, y := 2, z := 2, grid := [[], []] } rfl

/-- C10: `get_second_user` is a fixed-point-free involution on the two
players. -/
theorem get_second_user_involution (p : Player) :
    get_second_user p ≠ p ∧ get_second_user (get_second_user p) = p := by
  cases p <;> simp [get_second_user]
